import Mathlib

/-!
Shallow embedding of the process-execution and log-broadcast core of the
ytdl2 repository (package internal/command and package internal/server),
together with proofs about its specified properties.

Conventions of the embedding:
* Go slices become Lean lists; `append` is list append.
* A Go buffered channel, as observed by the one consumer holding its
  receiving end, becomes a `Chan` record: fixed capacity, the lines the
  consumer has already received, the lines currently buffered, and the
  closed flag.  A blocking send on a channel with free capacity appends
  to the buffer; the non-blocking send (Go select with a default branch)
  appends only when the buffer is below capacity and otherwise drops.
* Mutex-guarded critical sections become atomic Lean functions; the
  possible interleavings of the goroutines are a list of labelled steps
  (`CLabel`) folded over the state, with the scheduling constraints that
  the Go synchronisation primitives enforce expressed by `validTrace`.
* Machine integers carry no overflow here (line counts, exit codes in
  0..255), so `Nat`/`Int` are used directly.
* Behaviour of Go standard-library calls that the repository relies on
  (syscall.WaitStatus.ExitStatus on Linux, exec.Cmd.Wait on a command
  that was never started) is embedded where noted in doc comments.
-/

set_option maxHeartbeats 1000000

set_option maxRecDepth 40000

namespace Ytdl2

/-- One subscriber's view of a Go buffered channel of strings
(`chan string` with a fixed capacity chosen at `make`). -/
structure Chan where
  cap : Nat
  received : List String
  buf : List String
  closed : Bool
deriving DecidableEq

/-- A send on a channel known to have free capacity (used for the history
replay in `StdoutChannel`, whose channel is sized to hold the full
history plus slack). -/
def Chan.send (ch : Chan) (l : String) : Chan :=
  { ch with buf := ch.buf ++ [l] }

/-- The non-blocking send of `pipeToStdout`: Go `select` with a `default`
branch.  The line is enqueued when the buffer is below capacity and
silently dropped otherwise. -/
def Chan.offer (ch : Chan) (l : String) : Chan :=
  if ch.buf.length < ch.cap then { ch with buf := ch.buf ++ [l] } else ch

/-- Go `close(ch)`. -/
def Chan.close (ch : Chan) : Chan :=
  { ch with closed := true }

/-- A receive by the consumer: the oldest buffered line moves to the
consumer's received list.  On an empty buffer the consumer would block,
so the state is unchanged. -/
def Chan.recv (ch : Chan) : Chan :=
  match ch.buf with
  | [] => ch
  | l :: rest => { ch with received := ch.received ++ [l], buf := rest }

/-- Every line ever delivered into this channel, in delivery order:
first what the consumer already read, then what is still buffered. -/
def Chan.delivered (ch : Chan) : List String :=
  ch.received ++ ch.buf

/-- The underlying exec.Cmd handle: all the embedding needs to know about
it is whether `Start` succeeded on it. -/
structure Cmd where
  started : Bool
deriving DecidableEq

/-- The `Command` struct of package internal/command.  `err` keeps just
the error message.  Pipes and the waitGroup are represented by the trace
constraints (`validTrace`) rather than by fields. -/
structure Command where
  command : String
  args : List String
  cmd : Option Cmd
  exitCode : Int
  err : Option String
  executed : Bool
  workingDirectory : String
  stdoutLines : List String
  stdoutSubscribers : List Chan
  stdoutClosed : Bool
deriving DecidableEq

/-- `command.New`: fresh command with sentinel exit code -1. -/
def New (command : String) (args : List String) : Command :=
  { command := command
    args := args
    cmd := none
    exitCode := -1
    err := none
    executed := false
    workingDirectory := "."
    stdoutLines := []
    stdoutSubscribers := []
    stdoutClosed := false }

/-- `Command.SetWorkingDirectory`. -/
def Command.SetWorkingDirectory (c : Command) (dir : String) : Command :=
  { c with workingDirectory := dir }

/-- The point at which `Execute` can fail: creating either pipe, or
`cmd.Start`; `ok` means the process was started. -/
inductive StartOutcome
  | stdoutPipeErr (e : String)
  | stderrPipeErr (e : String)
  | startErr (e : String)
  | ok
deriving DecidableEq

/-- `Command.Execute`.  Note that `c.cmd` is assigned before any of the
failure points, exactly as in the source: after a failed Execute the
`cmd` field holds a non-started handle. -/
def Command.Execute (c : Command) (o : StartOutcome) : Option String × Command :=
  if c.executed then (none, c)
  else
    let c1 := { c with cmd := some { started := false } }
    match o with
    | .stdoutPipeErr e => (some e, c1)
    | .stderrPipeErr e => (some e, c1)
    | .startErr e => (some e, c1)
    | .ok => (none, { c1 with cmd := some { started := true }, executed := true })

/-- The body of `pipeToStdout`'s scan loop for one completed line, under
`stdoutMu`: append to history, then a non-blocking send to every
registered subscriber. -/
def Command.broadcastLine (c : Command) (line : String) : Command :=
  { c with
      stdoutLines := c.stdoutLines ++ [line]
      stdoutSubscribers := c.stdoutSubscribers.map (fun sub => sub.offer line) }

/-- `pipeToStdout`'s scanner-failure path: a synthetic line is appended
to the history (no subscriber broadcast happens on this path). -/
def Command.appendScanError (c : Command) (e : String) : Command :=
  { c with stdoutLines := c.stdoutLines ++ ["Error reading output: " ++ e] }

/-- What one stream's bufio.Scanner produced: the completed lines, and
the scanner error that ended the scan, if any (e.g. a line longer than
the 1MB maximum buffer). -/
structure ScanResult where
  lines : List String
  scanErr : Option String

/-- `Command.pipeToStdout` processing one whole stream. -/
def Command.pipeToStdout (c : Command) (r : ScanResult) : Command :=
  let c1 := r.lines.foldl Command.broadcastLine c
  match r.scanErr with
  | some e => c1.appendScanError e
  | none => c1

/-- `Command.StdoutChannel`: makes a channel of capacity
`len(history) + 100`, replays the whole history into it, then either
closes it (process already drained) or registers it as a subscriber.
Returns the new channel and the updated command. -/
def Command.StdoutChannel (c : Command) : Chan × Command :=
  let newChan : Chan :=
    { cap := c.stdoutLines.length + 100, received := [], buf := [], closed := false }
  let seeded := c.stdoutLines.foldl Chan.send newChan
  if c.stdoutClosed then
    (seeded.close, c)
  else
    (seeded, { c with stdoutSubscribers := c.stdoutSubscribers ++ [seeded] })

/-- The goroutine in `Execute` that runs once both readers are done:
marks the fan-out closed, closes every subscriber channel (returning the
closed channels as the consumers see them), and drops the subscriber
list. -/
def Command.closeSubscribers (c : Command) : List Chan × Command :=
  (c.stdoutSubscribers.map Chan.close,
   { c with stdoutClosed := true, stdoutSubscribers := [] })

/-- syscall.WaitStatus as the OS reports it: normal exit with an 8-bit
status code, or termination by signal. -/
inductive WaitStatus
  | exited (code : Nat)
  | signaled (sig : Nat)
deriving DecidableEq

/-- syscall.WaitStatus.ExitStatus on Linux (Go standard library): the
exit code for a normal exit, and -1 whenever the process did not exit
normally, in particular when it was terminated by a signal. -/
def WaitStatus.exitStatus : WaitStatus → Int
  | .exited code => (code : Int)
  | .signaled _ => -1

/-- The error value `exec.Cmd.Wait` can return: an *exec.ExitError whose
`Sys()` may or may not be a syscall.WaitStatus, or any other error. -/
inductive WaitErr
  | exitError (sys : Option WaitStatus)
  | otherError (msg : String)
deriving DecidableEq

/-- Go standard-library semantics of exec.Cmd.Wait: on a command whose
`Start` never succeeded it fails immediately with the error
"exec: not started"; otherwise it reports the OS wait outcome. -/
def osWaitResult (cmd : Cmd) (r : Option WaitErr) : Option WaitErr :=
  if cmd.started then r else some (.otherError "exec: not started")

/-- The exit-code capture section of `Command.Wait` (under `mu`). -/
def Command.captureExit (c : Command) (e : Option WaitErr) : Command :=
  match e with
  | none => { c with exitCode := 0 }
  | some (.exitError (some ws)) =>
      { c with exitCode := ws.exitStatus, err := some "exit error" }
  | some (.exitError none) => { c with exitCode := 1, err := some "exit error" }
  | some (.otherError m) => { c with exitCode := 1, err := some m }

/-- `Command.Wait`: nil `cmd` returns immediately with no error;
otherwise the OS wait outcome is captured into `exitCode`.  The
`waitGroup.Wait` between those two steps is represented by the trace
constraints. -/
def Command.Wait (c : Command) (r : Option WaitErr) : Option WaitErr × Command :=
  match c.cmd with
  | none => (none, c)
  | some cmd =>
    let e := osWaitResult cmd r
    (e, c.captureExit e)

/-- `Command.ExitCode`. -/
def Command.ExitCode (c : Command) : Int :=
  c.exitCode

/-- `Command.Logs`: snapshot copy of the history (copying is the
identity in a pure embedding). -/
def Command.Logs (c : Command) : List String :=
  c.stdoutLines

/-- One atomic step of any goroutine touching a `Command`. -/
inductive CLabel
  | execute (o : StartOutcome)
  | outLine (l : String)
  | outErr (e : String)
  | subscribe
  | closeSubs
  | wait (r : Option WaitErr)
  | logs
deriving DecidableEq

def CLabel.isWait : CLabel → Bool
  | .wait _ => true
  | _ => false

/-- State effect of one step. -/
def Command.applyLabel (c : Command) : CLabel → Command
  | .execute o => (c.Execute o).2
  | .outLine l => c.broadcastLine l
  | .outErr e => c.appendScanError e
  | .subscribe => (c.StdoutChannel).2
  | .closeSubs => (c.closeSubscribers).2
  | .wait r => (c.Wait r).2
  | .logs => c

/-- Scheduling constraint the Go code enforces with its waitGroup: the
closing goroutine runs only after both readers are done, so reader steps
(`outLine`, `outErr`) can only occur while the fan-out is still open. -/
def Command.labelOK (c : Command) : CLabel → Bool
  | .outLine _ => !c.stdoutClosed
  | .outErr _ => !c.stdoutClosed
  | _ => true

def Command.runTrace (c : Command) : List CLabel → Command
  | [] => c
  | l :: ls => (c.applyLabel l).runTrace ls

def Command.validTrace (c : Command) : List CLabel → Bool
  | [] => true
  | l :: ls => c.labelOK l && (c.applyLabel l).validTrace ls

/-- Events a single subscription can experience after being created:
a live line offered to it by the producer, or a receive by its consumer. -/
inductive SubEv
  | line (l : String)
  | recv
deriving DecidableEq

def subStep (ch : Chan) : SubEv → Chan
  | .line l => ch.offer l
  | .recv => ch.recv

def runSub (ch : Chan) (evs : List SubEv) : Chan :=
  evs.foldl subStep ch

/-- The live lines the producer offered, in order. -/
def liveLines (evs : List SubEv) : List String :=
  evs.filterMap (fun e => match e with | .line l => some l | .recv => none)

/-! ### The command registry (package internal/server) -/

/-- The registry's `CommandInfo` entry (the `StartedAt` timestamp is not
modelled: no claim mentions it). -/
structure CommandInfo where
  id : String
  url : String
  status : String
  exitCode : Int
deriving DecidableEq

/-- The registry-relevant state of `Server`: the `commands` map (as an
association list keyed by id) and the identifier counter, each guarded
by its own mutex in the source. -/
structure Server where
  commands : List (String × CommandInfo)
  commandCounter : Nat
deriving DecidableEq

/-- The identifier format of `nextCommandID`: Sprintf "cmd-%d". -/
def mkCommandID (n : Nat) : String :=
  "cmd-" ++ Nat.repr n

/-- `Server.nextCommandID`: increment the counter under `counterMu` and
render the identifier from the new value. -/
def Server.nextCommandID (s : Server) : String × Server :=
  let n := s.commandCounter + 1
  (mkCommandID n, { s with commandCounter := n })

/-- Go map store `m[k] = v`: replace the entry if the key is present,
otherwise add it. -/
def mapInsert (m : List (String × CommandInfo)) (k : String) (v : CommandInfo) :
    List (String × CommandInfo) :=
  if m.any (fun p => p.1 = k) then
    m.map (fun p => if p.1 = k then (k, v) else p)
  else m ++ [(k, v)]

/-- Go map read `m[id]`. -/
def Server.lookupCmd (s : Server) (id : String) : Option CommandInfo :=
  (s.commands.find? (fun p => p.1 = id)).map (fun p => p.2)

/-- The registration step of `handleYtDlp` after `Execute` succeeded:
allocate the next identifier and store an entry with status "running"
(`ExitCode` still at its zero value). -/
def Server.registerCommand (s : Server) (url : String) : String × Server :=
  let r := s.nextCommandID
  let info : CommandInfo := { id := r.1, url := url, status := "running", exitCode := 0 }
  (r.1, { r.2 with commands := mapInsert r.2.commands r.1 info })

/-- The monitor goroutine's registry update once `cmd.Wait()` resolved:
status becomes "completed" on exit code 0 and "failed" otherwise, and
the exit code is recorded.  (The goroutine mutates the entry through its
pointer; entries are never removed, so updating by key is the same.) -/
def Server.markFinished (s : Server) (id : String) (code : Int) : Server :=
  { s with
      commands := s.commands.map (fun p =>
        if p.1 = id then
          (p.1, { p.2 with
                    status := if code = 0 then "completed" else "failed"
                    exitCode := code })
        else p) }

/-- One registry-touching operation of the HTTP layer.  `readOnly`
stands for all handlers that only read the map (command list, logs,
files). -/
inductive SOp
  | register (url : String)
  | finish (id : String) (code : Int)
  | readOnly
deriving DecidableEq

def Server.applyOp (s : Server) : SOp → Server
  | .register url => (s.registerCommand url).2
  | .finish id code => s.markFinished id code
  | .readOnly => s

def Server.runOps (s : Server) : List SOp → Server
  | [] => s
  | op :: ops => (s.applyOp op).runOps ops

/-- Registry invariant: every key in the map was issued by the counter,
i.e. is `cmd-n` for some `1 ≤ n ≤ commandCounter`. -/
def Server.Inv (s : Server) : Prop :=
  ∀ p ∈ s.commands, ∃ n, 1 ≤ n ∧ n ≤ s.commandCounter ∧ p.1 = mkCommandID n

/-- The stream of identifiers from `k` successive `nextCommandID` calls,
paired with the counter value each came from. -/
def Server.allocPairs (s : Server) : Nat → List (String × Nat)
  | 0 => []
  | k + 1 =>
    let r := s.nextCommandID
    (r.1, r.2.commandCounter) :: r.2.allocPairs k

/-! ### Injectivity of the identifier rendering

`nextCommandID` renders identifiers with Sprintf "cmd-%d".  The decimal
rendering in the embedding is `Nat.repr` from core Lean; the following
decode function and lemmas show it is injective, so distinct counter
values yield distinct identifiers. -/

/-- Numeric value of a decimal digit character. -/
def decDigit (c : Char) : Nat :=
  c.toNat - 48

/-- Value of a big-endian list of decimal digit characters. -/
def decodeDigits (l : List Char) : Nat :=
  l.foldl (fun a c => 10 * a + decDigit c) 0

theorem decDigit_digitChar (k : Nat) (h : k < 10) :
    decDigit (Nat.digitChar k) = k := by
  interval_cases k <;> decide

theorem decodeDigits_append (x : List Char) (d : Char) :
    decodeDigits (x ++ [d]) = 10 * decodeDigits x + decDigit d := by
  simp [decodeDigits, List.foldl_append]

theorem toDigitsCore_acc :
    ∀ n f acc, n < f →
      Nat.toDigitsCore 10 f n acc = Nat.toDigitsCore 10 (n + 1) n [] ++ acc := by
  intro n
  induction n using Nat.strong_induction_on with
  | _ n ih =>
    intro f acc hf
    obtain ⟨f', rfl⟩ : ∃ f', f = f' + 1 := ⟨f - 1, by omega⟩
    by_cases h0 : n / 10 = 0
    · simp [Nat.toDigitsCore, h0]
    · have hn : 0 < n := Nat.pos_of_ne_zero (fun h => h0 (by simp [h]))
      have hlt : n / 10 < n := Nat.div_lt_self hn (by omega)
      rw [show Nat.toDigitsCore 10 (f' + 1) n acc
            = Nat.toDigitsCore 10 f' (n / 10) (Nat.digitChar (n % 10) :: acc) by
            simp [Nat.toDigitsCore, h0]]
      rw [show Nat.toDigitsCore 10 (n + 1) n []
            = Nat.toDigitsCore 10 n (n / 10) [Nat.digitChar (n % 10)] by
            simp [Nat.toDigitsCore, h0]]
      rw [ih (n / 10) hlt f' _ (by omega), ih (n / 10) hlt n _ (by omega)]
      simp

theorem decode_toDigits (n : Nat) : decodeDigits (Nat.toDigits 10 n) = n := by
  induction n using Nat.strong_induction_on with
  | _ n ih =>
    by_cases h0 : n / 10 = 0
    · have h10 : n < 10 := (Nat.div_eq_zero_iff (by omega)).1 h0
      have : Nat.toDigits 10 n = [Nat.digitChar (n % 10)] := by
        simp [Nat.toDigits, Nat.toDigitsCore, h0]
      rw [this, Nat.mod_eq_of_lt h10]
      simpa [decodeDigits] using decDigit_digitChar n h10
    · have hn : 0 < n := Nat.pos_of_ne_zero (fun h => h0 (by simp [h]))
      have hlt : n / 10 < n := Nat.div_lt_self hn (by omega)
      have h1 : Nat.toDigits 10 n
          = Nat.toDigitsCore 10 n (n / 10) [Nat.digitChar (n % 10)] := by
        simp [Nat.toDigits, Nat.toDigitsCore, h0]
      have h2 : Nat.toDigitsCore 10 n (n / 10) [Nat.digitChar (n % 10)]
          = Nat.toDigits 10 (n / 10) ++ [Nat.digitChar (n % 10)] :=
        toDigitsCore_acc (n / 10) n _ hlt
      rw [h1, h2, decodeDigits_append, ih (n / 10) hlt,
        decDigit_digitChar (n % 10) (Nat.mod_lt n (by omega))]
      exact Nat.div_add_mod n 10

theorem natRepr_injective : Function.Injective Nat.repr := by
  intro m n h
  have hd : Nat.toDigits 10 m = Nat.toDigits 10 n := congrArg String.data h
  have := congrArg decodeDigits hd
  simpa [decode_toDigits] using this

theorem mkCommandID_injective : Function.Injective mkCommandID := by
  intro m n h
  have hd : ("cmd-" ++ Nat.repr m).data = ("cmd-" ++ Nat.repr n).data :=
    congrArg String.data h
  simp only [String.data_append] at hd
  have : (Nat.repr m).data = (Nat.repr n).data := List.append_cancel_left hd
  exact natRepr_injective (String.ext this)

/-! ### Basic channel and fan-out lemmas -/

theorem foldl_send (lines : List String) (ch : Chan) :
    lines.foldl Chan.send ch
      = { ch with buf := ch.buf ++ lines } := by
  induction lines generalizing ch with
  | nil => simp
  | cons l ls ih => simp [Chan.send, ih]

theorem offer_cap (ch : Chan) (l : String) : (ch.offer l).cap = ch.cap := by
  unfold Chan.offer; split <;> rfl

theorem offer_received (ch : Chan) (l : String) :
    (ch.offer l).received = ch.received := by
  unfold Chan.offer; split <;> rfl

theorem offer_buf_of_room (ch : Chan) (l : String) (h : ch.buf.length < ch.cap) :
    (ch.offer l).buf = ch.buf ++ [l] := by
  unfold Chan.offer; rw [if_pos h]

theorem offer_of_full (ch : Chan) (l : String) (h : ¬ ch.buf.length < ch.cap) :
    ch.offer l = ch := by
  unfold Chan.offer; rw [if_neg h]

theorem delivered_offer (ch : Chan) (l : String) :
    (ch.offer l).delivered
      = if ch.buf.length < ch.cap then ch.delivered ++ [l] else ch.delivered := by
  unfold Chan.offer Chan.delivered
  split <;> simp

theorem delivered_recv (ch : Chan) : ch.recv.delivered = ch.delivered := by
  unfold Chan.recv Chan.delivered
  rcases h : ch.buf with _ | ⟨l, rest⟩ <;> simp [h]

theorem recv_cap (ch : Chan) : ch.recv.cap = ch.cap := by
  unfold Chan.recv
  rcases h : ch.buf with _ | ⟨l, rest⟩ <;> simp [h]

theorem recv_buf_length (ch : Chan) : ch.recv.buf.length ≤ ch.buf.length := by
  unfold Chan.recv
  rcases h : ch.buf with _ | ⟨l, rest⟩ <;> simp [h]

theorem foldl_broadcast_stdoutLines (lines : List String) (c : Command) :
    (lines.foldl Command.broadcastLine c).stdoutLines = c.stdoutLines ++ lines := by
  induction lines generalizing c with
  | nil => simp
  | cons l ls ih => simp [Command.broadcastLine, ih]

theorem foldl_broadcast_fields (lines : List String) (c : Command) :
    (lines.foldl Command.broadcastLine c).exitCode = c.exitCode
    ∧ (lines.foldl Command.broadcastLine c).err = c.err
    ∧ (lines.foldl Command.broadcastLine c).stdoutClosed = c.stdoutClosed
    ∧ (lines.foldl Command.broadcastLine c).executed = c.executed
    ∧ (lines.foldl Command.broadcastLine c).cmd = c.cmd := by
  induction lines generalizing c with
  | nil => simp
  | cons l ls ih => simpa [Command.broadcastLine] using ih (c.broadcastLine l)

theorem pipeToStdout_stdoutLines (c : Command) (r : ScanResult) :
    (c.pipeToStdout r).stdoutLines
      = c.stdoutLines ++ r.lines
        ++ (match r.scanErr with
            | some e => ["Error reading output: " ++ e]
            | none => []) := by
  unfold Command.pipeToStdout
  match r with
  | ⟨lines, some e⟩ => simp [Command.appendScanError, foldl_broadcast_stdoutLines]
  | ⟨lines, none⟩ => simp [foldl_broadcast_stdoutLines]

theorem pipeToStdout_exitCode (c : Command) (r : ScanResult) :
    (c.pipeToStdout r).exitCode = c.exitCode := by
  unfold Command.pipeToStdout
  match r with
  | ⟨lines, some e⟩ =>
    simpa [Command.appendScanError] using (foldl_broadcast_fields lines c).1
  | ⟨lines, none⟩ => simpa using (foldl_broadcast_fields lines c).1

theorem stdoutChannel_fst (c : Command) :
    (c.StdoutChannel).1
      = { cap := c.stdoutLines.length + 100, received := [], buf := c.stdoutLines,
          closed := c.stdoutClosed } := by
  unfold Command.StdoutChannel
  cases hc : c.stdoutClosed <;> simp [hc, foldl_send, Chan.close]

theorem stdoutChannel_snd_closed (c : Command) (h : c.stdoutClosed = true) :
    (c.StdoutChannel).2 = c := by
  unfold Command.StdoutChannel
  simp [h]

theorem stdoutChannel_mem (c : Command) (h : c.stdoutClosed = false) :
    (c.StdoutChannel).1 ∈ (c.StdoutChannel).2.stdoutSubscribers := by
  unfold Command.StdoutChannel
  simp [h]

/-! ### Claim theorems: output subscription and fan-out -/

/-- Claim C1: a channel returned by `StdoutChannel` is seeded with a copy of
the whole history so far, in order, with nothing yet consumed; the seed fits
strictly below the channel's capacity (so the replay itself is lossless);
when the call happens after the process has fully finished and drained
(`stdoutClosed`), the channel holds the entire final history and is already
closed, and no registration happens; otherwise the channel is open and is
registered as a subscriber; and any later live line is delivered only after
the seeded history (the history stays a prefix of the delivered sequence). -/
theorem C1_stdoutChannel_seeds_history (c : Command) :
    (c.StdoutChannel).1.received = []
    ∧ (c.StdoutChannel).1.buf = c.stdoutLines
    ∧ (c.StdoutChannel).1.buf.length < (c.StdoutChannel).1.cap
    ∧ (c.stdoutClosed = true →
        (c.StdoutChannel).1.closed = true ∧ (c.StdoutChannel).2 = c)
    ∧ (c.stdoutClosed = false →
        (c.StdoutChannel).1.closed = false
        ∧ (c.StdoutChannel).1 ∈ (c.StdoutChannel).2.stdoutSubscribers)
    ∧ (∀ l, ∃ t, ((c.StdoutChannel).1.offer l).delivered = c.stdoutLines ++ t) := by
  refine ⟨?_, ?_, ?_,
    fun h => ⟨?_, stdoutChannel_snd_closed c h⟩,
    fun h => ⟨?_, stdoutChannel_mem c h⟩, ?_⟩
  · rw [stdoutChannel_fst]
  · rw [stdoutChannel_fst]
  · rw [stdoutChannel_fst]; simp
  · rw [stdoutChannel_fst]; exact h
  · rw [stdoutChannel_fst]; exact h
  · intro l
    rw [delivered_offer, stdoutChannel_fst]
    dsimp [Chan.delivered]
    split
    · exact ⟨[l], by simp⟩
    · exact ⟨[], by simp⟩

/-- A freshly constructed runner, used as concrete input of the C1 witness. -/
def c1Fresh : Command :=
  New "yt-dlp" ["u"]

/-- A drained runner (fan-out already closed), used as concrete input of the
C1 witness. -/
def c1Drained : Command :=
  (c1Fresh.closeSubscribers).2

/-- Witness for C1 at concrete inputs: a fresh runner (fan-out open) and a
drained runner (fan-out closed). -/
theorem C1_witness :
    (c1Fresh.stdoutClosed = false
      ∧ (c1Fresh.StdoutChannel).1.closed = false
      ∧ (c1Fresh.StdoutChannel).1 ∈ (c1Fresh.StdoutChannel).2.stdoutSubscribers)
    ∧ (c1Drained.stdoutClosed = true
      ∧ (c1Drained.StdoutChannel).1.closed = true
      ∧ (c1Drained.StdoutChannel).2 = c1Drained) :=
  ⟨⟨by decide,
    ((C1_stdoutChannel_seeds_history c1Fresh).2.2.2.2.1 (by decide)).1,
    ((C1_stdoutChannel_seeds_history c1Fresh).2.2.2.2.1 (by decide)).2⟩,
   ⟨by decide,
    ((C1_stdoutChannel_seeds_history c1Drained).2.2.2.1 (by decide)).1,
    ((C1_stdoutChannel_seeds_history c1Drained).2.2.2.1 (by decide)).2⟩⟩

/-- Claim C2: delivering a live line is a non-blocking offer.  The producer
always appends the line to history; each registered subscriber is updated
independently by `Chan.offer`, which enqueues the line when the subscriber's
buffer has room and otherwise drops it for that subscriber only; and an
entire stream is always drained completely — every scanned line reaches the
history and the command's exit state is untouched — no matter how full the
subscriber buffers are, so a subscriber that never reads cannot prevent the
readers from finishing and `Wait` from resolving. -/
theorem C2_nonblocking_offer (c : Command) (line : String) :
    (c.broadcastLine line).stdoutLines = c.stdoutLines ++ [line]
    ∧ (c.broadcastLine line).stdoutSubscribers
        = c.stdoutSubscribers.map (fun sub => sub.offer line)
    ∧ (∀ ch : Chan, ch.buf.length < ch.cap → (ch.offer line).buf = ch.buf ++ [line])
    ∧ (∀ ch : Chan, ¬ ch.buf.length < ch.cap → ch.offer line = ch)
    ∧ (∀ r : ScanResult, ∃ t,
        (c.pipeToStdout r).stdoutLines = c.stdoutLines ++ r.lines ++ t
        ∧ (c.pipeToStdout r).exitCode = c.exitCode) := by
  refine ⟨rfl, rfl, fun ch h => offer_buf_of_room ch line h,
    fun ch h => offer_of_full ch line h, fun r => ?_⟩
  exact ⟨_, pipeToStdout_stdoutLines c r, pipeToStdout_exitCode c r⟩

/-- Witness for C2 at concrete inputs: a subscriber with room accepts the
line, a full subscriber drops it. -/
theorem C2_witness :
    ((⟨1, [], [], false⟩ : Chan).buf.length < (⟨1, [], [], false⟩ : Chan).cap
      ∧ ((⟨1, [], [], false⟩ : Chan).offer "a").buf = [] ++ ["a"])
    ∧ (¬ (⟨1, [], ["x"], false⟩ : Chan).buf.length < (⟨1, [], ["x"], false⟩ : Chan).cap
      ∧ (⟨1, [], ["x"], false⟩ : Chan).offer "a" = ⟨1, [], ["x"], false⟩) :=
  ⟨⟨by decide, (C2_nonblocking_offer (New "c" []) "a").2.2.1 _ (by decide)⟩,
   ⟨by decide, (C2_nonblocking_offer (New "c" []) "a").2.2.2.1 _ (by decide)⟩⟩

/-- Claim C8: a scanner failure on a stream appends the synthetic line
"Error reading output: " plus the error text to the history after the lines
that were scanned, leaves the command's exit state (exit code and stored
error) untouched, and a subsequent drain of the other stream still appends
that stream's lines — the runner continues instead of aborting. -/
theorem C8_scan_error_recovered (c : Command) (lines : List String) (e : String)
    (r2 : ScanResult) :
    (c.pipeToStdout ⟨lines, some e⟩).stdoutLines
        = c.stdoutLines ++ lines ++ ["Error reading output: " ++ e]
    ∧ (c.pipeToStdout ⟨lines, some e⟩).exitCode = c.exitCode
    ∧ (c.pipeToStdout ⟨lines, some e⟩).err = c.err
    ∧ (c.pipeToStdout ⟨lines, some e⟩).stdoutClosed = c.stdoutClosed
    ∧ ((c.pipeToStdout ⟨lines, some e⟩).pipeToStdout r2).stdoutLines
        = (c.stdoutLines ++ lines ++ ["Error reading output: " ++ e]) ++ r2.lines
          ++ (match r2.scanErr with
              | some e2 => ["Error reading output: " ++ e2]
              | none => []) := by
  have herr : (c.pipeToStdout ⟨lines, some e⟩).err = c.err := by
    unfold Command.pipeToStdout
    simpa [Command.appendScanError] using (foldl_broadcast_fields lines c).2.1
  have hclosed : (c.pipeToStdout ⟨lines, some e⟩).stdoutClosed = c.stdoutClosed := by
    unfold Command.pipeToStdout
    simpa [Command.appendScanError] using (foldl_broadcast_fields lines c).2.2.1
  refine ⟨?_, pipeToStdout_exitCode c _, herr, hclosed, ?_⟩
  · simpa using pipeToStdout_stdoutLines c ⟨lines, some e⟩
  · rw [pipeToStdout_stdoutLines, pipeToStdout_stdoutLines]

/-! ### Subscription delivery across a run (claim C3) -/

theorem delivered_subStep (ch : Chan) (e : SubEv) :
    (subStep ch e).delivered
      = match e with
        | .line l => if ch.buf.length < ch.cap then ch.delivered ++ [l] else ch.delivered
        | .recv => ch.delivered := by
  cases e with
  | line l => exact delivered_offer ch l
  | recv => exact delivered_recv ch

theorem subStep_cap (ch : Chan) (e : SubEv) : (subStep ch e).cap = ch.cap := by
  cases e with
  | line l => exact offer_cap ch l
  | recv => exact recv_cap ch

/-- Whatever a subscription's consumer does, the lines delivered to it are
its state at subscription time followed by a subsequence of the live lines,
in order: nothing is delivered twice and nothing is reordered. -/
theorem runSub_delivered_sublist (evs : List SubEv) (ch : Chan) :
    ∃ t, (runSub ch evs).delivered = ch.delivered ++ t ∧ t.Sublist (liveLines evs) := by
  induction evs generalizing ch with
  | nil => exact ⟨[], by simp [runSub], List.Sublist.refl _⟩
  | cons e es ih =>
    have hrun : runSub ch (e :: es) = runSub (subStep ch e) es := by
      simp [runSub]
    cases e with
    | line l =>
      obtain ⟨t, ht, hs⟩ := ih (ch.offer l)
      rw [hrun]
      show ∃ t, (runSub (ch.offer l) es).delivered = ch.delivered ++ t
        ∧ t.Sublist (liveLines (.line l :: es))
      rw [ht, delivered_offer]
      by_cases hfull : ch.buf.length < ch.cap
      · rw [if_pos hfull]
        exact ⟨l :: t, by simp, by simpa [liveLines] using List.Sublist.cons₂ l hs⟩
      · rw [if_neg hfull]
        exact ⟨t, rfl, by simpa [liveLines] using List.Sublist.cons l hs⟩
    | recv =>
      obtain ⟨t, ht, hs⟩ := ih ch.recv
      rw [hrun]
      show ∃ t, (runSub ch.recv es).delivered = ch.delivered ++ t
        ∧ t.Sublist (liveLines (.recv :: es))
      refine ⟨t, ?_, by simpa [liveLines] using hs⟩
      rw [ht, delivered_recv]

/-- As long as the subscriber's buffer can absorb every live line (here: the
buffered backlog plus all remaining live lines fit under the capacity), no
line is dropped: the delivery is exactly the live lines, in order. -/
theorem runSub_delivered_all (evs : List SubEv) (ch : Chan)
    (h : ch.buf.length + (liveLines evs).length ≤ ch.cap) :
    (runSub ch evs).delivered = ch.delivered ++ liveLines evs := by
  induction evs generalizing ch with
  | nil => simp [runSub, liveLines]
  | cons e es ih =>
    have hrun : runSub ch (e :: es) = runSub (subStep ch e) es := by
      simp [runSub]
    cases e with
    | line l =>
      have hlive : liveLines (SubEv.line l :: es) = l :: liveLines es := by
        simp [liveLines]
      rw [hlive] at h ⊢
      have hroom : ch.buf.length < ch.cap := by
        simp at h; omega
      have hbuf : (ch.offer l).buf.length = ch.buf.length + 1 := by
        rw [offer_buf_of_room ch l hroom]; simp
      have hih := ih (ch.offer l) (by rw [hbuf, offer_cap]; simp at h ⊢; omega)
      rw [hrun]
      show (runSub (ch.offer l) es).delivered = ch.delivered ++ l :: liveLines es
      rw [hih, delivered_offer, if_pos hroom]
      simp
    | recv =>
      have hlive : liveLines (SubEv.recv :: es) = liveLines es := by
        simp [liveLines]
      rw [hlive] at h ⊢
      have hih := ih ch.recv (by
        have := recv_buf_length ch
        rw [recv_cap]; omega)
      rw [hrun]
      show (runSub ch.recv es).delivered = ch.delivered ++ liveLines es
      rw [hih, delivered_recv]

/-- The subscription of the C3 counterexample: a channel obtained from a
fresh runner, so its capacity is 0 + 100. -/
def c3Chan : Chan :=
  ((New "yt-dlp" ["u"]).StdoutChannel).1

/-- 101 live lines, numbered 0..100, offered to a subscriber that never
reads. -/
def c3Evs : List SubEv :=
  (List.range 101).map (fun i => SubEv.line (Nat.repr i))

/-- Counterexample to claim C3 as stated: a subscriber that reads slowly
enough (here: not at all) does have lines skipped.  After 101 live lines are
offered to a subscription opened on a fresh runner (buffer capacity 100),
the line "100" was produced but never delivered to that subscriber. -/
theorem C3_counterexample :
    Nat.repr 100 ∈ liveLines c3Evs
    ∧ Nat.repr 100 ∉ (runSub c3Chan c3Evs).delivered := by
  decide

/-- Claim C3 (amended): a subscription created at any time receives every
line already in history at subscription time immediately and in order, then
subsequent live lines in the order they arrive, and no line is ever
delivered twice to it; but a live line arriving while the subscriber's
buffer is full is skipped for that subscriber, so "no line is ever skipped"
only holds while the buffer keeps up — in particular whenever at most 100
live lines (the channel's slack beyond the replayed history) arrive. -/
theorem C3_subscription_delivery (c : Command) (evs : List SubEv) :
    (∃ t, (runSub (c.StdoutChannel).1 evs).delivered = c.stdoutLines ++ t
          ∧ t.Sublist (liveLines evs))
    ∧ ((liveLines evs).length ≤ 100 →
        (runSub (c.StdoutChannel).1 evs).delivered = c.stdoutLines ++ liveLines evs) := by
  have hch := stdoutChannel_fst c
  have hdel : ((c.StdoutChannel).1).delivered = c.stdoutLines := by
    rw [hch]; simp [Chan.delivered]
  constructor
  · obtain ⟨t, ht, hs⟩ := runSub_delivered_sublist evs (c.StdoutChannel).1
    exact ⟨t, by rw [ht, hdel], hs⟩
  · intro h
    have hlen : ((c.StdoutChannel).1).buf.length + (liveLines evs).length
        ≤ ((c.StdoutChannel).1).cap := by
      rw [hch]; simp; omega
    rw [runSub_delivered_all evs _ hlen, hdel]

/-- Witness for C3 (amended) at a concrete input: two live lines with a read
in between are all delivered, in order, after the (empty) history. -/
theorem C3_witness :
    (liveLines [SubEv.line "a", SubEv.recv, SubEv.line "b"]).length ≤ 100
    ∧ (runSub ((New "x" []).StdoutChannel).1
          [SubEv.line "a", SubEv.recv, SubEv.line "b"]).delivered
        = (New "x" []).stdoutLines ++ liveLines [SubEv.line "a", SubEv.recv, SubEv.line "b"] :=
  ⟨by decide,
   (C3_subscription_delivery (New "x" [])
     [SubEv.line "a", SubEv.recv, SubEv.line "b"]).2 (by decide)⟩

/-! ### Exit-code capture (claims C4, C10) -/

/-- A runner whose process was started, used by the C4 counterexample and
witness. -/
def c4Started : Command :=
  ((New "yt-dlp" ["u"]).Execute .ok).2

/-- Counterexample to claim C4 as stated: when the OS reports termination by
signal, the captured exit code is the -1 that WaitStatus.ExitStatus returns
for a signalled status — not the claimed fixed fallback 1. -/
theorem C4_counterexample :
    ((c4Started.Wait (some (.exitError (some (.signaled 9))))).2).ExitCode = -1
    ∧ ((-1 : Int) = 1 → False) := by
  decide

/-- Claim C4 (amended): after `Wait` resolves on a started command,
`ExitCode` is 0 for a successful exit and the process-reported code for a
normal exit with a code (nonzero for a failing exit); termination by signal
stores -1 (the value syscall.WaitStatus.ExitStatus reports in that case),
and the fixed fallback 1 is stored only when the wait error carries no OS
wait status or is not an exit-status error at all. -/
theorem C4_exit_code_mapping (c : Command) (cmd : Cmd)
    (hc : c.cmd = some cmd) (hs : cmd.started = true) :
    ((c.Wait none).2.ExitCode = 0)
    ∧ (∀ code : Nat,
        ((c.Wait (some (.exitError (some (.exited code))))).2.ExitCode = (code : Int)))
    ∧ (∀ sig : Nat,
        ((c.Wait (some (.exitError (some (.signaled sig))))).2.ExitCode = -1))
    ∧ ((c.Wait (some (.exitError none))).2.ExitCode = 1)
    ∧ (∀ m, ((c.Wait (some (.otherError m))).2.ExitCode = 1)) := by
  unfold Command.Wait
  rw [hc]
  simp [osWaitResult, hs, Command.captureExit, Command.ExitCode, WaitStatus.exitStatus]

/-- Witness for C4 (amended) at a concrete input: a started runner whose
process exits with code 3, and one whose process exits successfully. -/
theorem C4_witness :
    c4Started.cmd = some { started := true }
    ∧ ({ started := true } : Cmd).started = true
    ∧ ((c4Started.Wait (some (.exitError (some (.exited 3))))).2.ExitCode = (3 : Int))
    ∧ ((c4Started.Wait none).2.ExitCode = 0) :=
  ⟨by decide, by decide,
   (C4_exit_code_mapping c4Started { started := true } (by decide) (by decide)).2.1 3,
   (C4_exit_code_mapping c4Started { started := true } (by decide) (by decide)).1⟩

/-- A runner whose Execute failed at Start, used by the C10 counterexample:
its `cmd` field already holds a (non-started) handle. -/
def c10Failed : Command :=
  ((New "yt-dlp" ["u"]).Execute (.startErr "fork failed")).2

/-- Counterexample to claim C10 as stated: after a *failed* Execute, Wait
does not return nil with the state unchanged — `cmd` was assigned before
Start failed, so Wait calls the OS wait, gets the "exec: not started" error,
and the exit code becomes the fallback 1 instead of staying at -1. -/
theorem C10_counterexample :
    (c10Failed.Wait none).1 = some (.otherError "exec: not started")
    ∧ ((c10Failed.Wait none).2).ExitCode = 1 := by
  decide

/-- Claim C10 (amended): on a Command on which Execute was never called the
`cmd` handle is nil, so Wait returns nil immediately with the runner
unchanged and ExitCode still the sentinel -1 (which a fresh runner carries);
but when Execute was called and failed, `cmd` already holds a non-started
handle, so Wait surfaces the "exec: not started" error and ExitCode becomes
the fallback 1. -/
theorem C10_wait_before_execute (c : Command) (r : Option WaitErr) :
    (c.cmd = none → c.Wait r = (none, c))
    ∧ (∀ cmd, c.cmd = some cmd → cmd.started = false →
        (c.Wait r).1 = some (.otherError "exec: not started")
        ∧ (c.Wait r).2.ExitCode = 1)
    ∧ (∀ name args, (New name args).cmd = none ∧ (New name args).ExitCode = -1
        ∧ ∀ e, ((New name args).Execute (.startErr e)).2.cmd
            = some { started := false }) := by
  refine ⟨?_, ?_, ?_⟩
  · intro h
    unfold Command.Wait
    rw [h]
  · intro cmd hc hs
    unfold Command.Wait
    rw [hc]
    simp [osWaitResult, hs, Command.captureExit, Command.ExitCode]
  · intro name args
    exact ⟨rfl, rfl, fun e => rfl⟩

/-- Witness for C10 (amended) at a concrete input: a fresh runner. -/
theorem C10_witness :
    (New "yt-dlp" ["u"]).cmd = none
    ∧ (New "yt-dlp" ["u"]).Wait none = (none, New "yt-dlp" ["u"]) :=
  ⟨by decide, (C10_wait_before_execute (New "yt-dlp" ["u"]) none).1 (by decide)⟩

/-! ### Trace-level invariants (claims C6, C7) -/

theorem execute_preserves (c : Command) (o : StartOutcome) :
    ((c.Execute o).2).stdoutLines = c.stdoutLines
    ∧ ((c.Execute o).2).exitCode = c.exitCode
    ∧ ((c.Execute o).2).stdoutClosed = c.stdoutClosed := by
  unfold Command.Execute
  split
  · exact ⟨rfl, rfl, rfl⟩
  · cases o <;> exact ⟨rfl, rfl, rfl⟩

theorem wait_preserves (c : Command) (r : Option WaitErr) :
    ((c.Wait r).2).stdoutLines = c.stdoutLines
    ∧ ((c.Wait r).2).stdoutClosed = c.stdoutClosed := by
  unfold Command.Wait
  cases hc : c.cmd with
  | none => exact ⟨rfl, rfl⟩
  | some cmd =>
    dsimp only
    cases hr : osWaitResult cmd r with
    | none => simp [Command.captureExit]
    | some e =>
      cases e with
      | exitError s =>
        cases s with
        | none => simp [Command.captureExit]
        | some ws => simp [Command.captureExit]
      | otherError m => simp [Command.captureExit]

theorem subscribe_preserves (c : Command) :
    ((c.StdoutChannel).2).stdoutLines = c.stdoutLines
    ∧ ((c.StdoutChannel).2).exitCode = c.exitCode
    ∧ ((c.StdoutChannel).2).stdoutClosed = c.stdoutClosed := by
  unfold Command.StdoutChannel
  cases hc : c.stdoutClosed <;> simp [hc]

/-- Every step appends some (possibly empty) suffix to the history: a line
already captured is never removed or mutated. -/
theorem applyLabel_lines_mono (c : Command) (l : CLabel) :
    ∃ t, (c.applyLabel l).stdoutLines = c.stdoutLines ++ t := by
  cases l with
  | execute o => exact ⟨[], by simp [Command.applyLabel, (execute_preserves c o).1]⟩
  | outLine s => exact ⟨[s], rfl⟩
  | outErr e => exact ⟨["Error reading output: " ++ e], rfl⟩
  | subscribe => exact ⟨[], by simp [Command.applyLabel, (subscribe_preserves c).1]⟩
  | closeSubs => exact ⟨[], by simp [Command.applyLabel, Command.closeSubscribers]⟩
  | wait r => exact ⟨[], by simp [Command.applyLabel, (wait_preserves c r).1]⟩
  | logs => exact ⟨[], by simp [Command.applyLabel]⟩

theorem applyLabel_closed_mono (c : Command) (l : CLabel) (h : c.stdoutClosed = true) :
    (c.applyLabel l).stdoutClosed = true := by
  cases l with
  | execute o => rw [Command.applyLabel, (execute_preserves c o).2.2]; exact h
  | outLine s => exact h
  | outErr e => exact h
  | subscribe => rw [Command.applyLabel, (subscribe_preserves c).2.2]; exact h
  | closeSubs => rfl
  | wait r => rw [Command.applyLabel, (wait_preserves c r).2]; exact h
  | logs => exact h

theorem applyLabel_frozen (c : Command) (l : CLabel) (h : c.stdoutClosed = true)
    (hok : c.labelOK l = true) :
    (c.applyLabel l).stdoutLines = c.stdoutLines := by
  cases l with
  | execute o => exact (execute_preserves c o).1
  | outLine s => simp [Command.labelOK, h] at hok
  | outErr e => simp [Command.labelOK, h] at hok
  | subscribe => exact (subscribe_preserves c).1
  | closeSubs => rfl
  | wait r => exact (wait_preserves c r).1
  | logs => rfl

theorem runTrace_lines_mono (tr : List CLabel) (c : Command) :
    ∃ t, (c.runTrace tr).stdoutLines = c.stdoutLines ++ t := by
  induction tr generalizing c with
  | nil => exact ⟨[], by simp [Command.runTrace]⟩
  | cons l ls ih =>
    obtain ⟨t1, h1⟩ := applyLabel_lines_mono c l
    obtain ⟨t2, h2⟩ := ih (c.applyLabel l)
    exact ⟨t1 ++ t2, by rw [Command.runTrace, h2, h1, List.append_assoc]⟩

theorem runTrace_frozen (tr : List CLabel) (c : Command)
    (hv : c.validTrace tr = true) (hc : c.stdoutClosed = true) :
    (c.runTrace tr).stdoutLines = c.stdoutLines := by
  induction tr generalizing c with
  | nil => simp [Command.runTrace]
  | cons l ls ih =>
    rw [Command.validTrace, Bool.and_eq_true] at hv
    rw [Command.runTrace, ih (c.applyLabel l) hv.2 (applyLabel_closed_mono c l hc),
      applyLabel_frozen c l hc hv.1]

/-- Claim C6: across any valid sequence of operations (line capture, scan
errors, subscription, close, wait, snapshots), the history only grows: the
earlier history is a prefix of the later one, so a line once appended is
never removed or mutated; and once the process has been reaped and drained
(the fan-out is closed) the history never changes again. -/
theorem C6_history_append_only (c : Command) (tr : List CLabel)
    (h : c.validTrace tr = true) :
    (∃ t, (c.runTrace tr).stdoutLines = c.stdoutLines ++ t)
    ∧ (c.stdoutClosed = true → (c.runTrace tr).stdoutLines = c.stdoutLines)
    ∧ (c.runTrace tr).Logs = (c.runTrace tr).stdoutLines := by
  exact ⟨runTrace_lines_mono tr c, runTrace_frozen tr c h, rfl⟩

/-- Witness for C6 at a concrete input: a run that starts, emits two lines,
subscribes, closes and waits. -/
theorem C6_witness :
    (New "yt-dlp" ["u"]).validTrace
        [CLabel.execute .ok, CLabel.outLine "a", CLabel.subscribe, CLabel.outLine "b",
         CLabel.closeSubs, CLabel.wait none, CLabel.logs] = true
    ∧ ∃ t, ((New "yt-dlp" ["u"]).runTrace
        [CLabel.execute .ok, CLabel.outLine "a", CLabel.subscribe, CLabel.outLine "b",
         CLabel.closeSubs, CLabel.wait none, CLabel.logs]).stdoutLines
        = (New "yt-dlp" ["u"]).stdoutLines ++ t :=
  ⟨by decide,
   (C6_history_append_only (New "yt-dlp" ["u"])
     [CLabel.execute .ok, CLabel.outLine "a", CLabel.subscribe, CLabel.outLine "b",
      CLabel.closeSubs, CLabel.wait none, CLabel.logs] (by decide)).1⟩

theorem applyLabel_exitCode (c : Command) (l : CLabel) (h : l.isWait = false) :
    (c.applyLabel l).exitCode = c.exitCode := by
  cases l with
  | execute o => exact (execute_preserves c o).2.1
  | outLine s => rfl
  | outErr e => rfl
  | subscribe => exact (subscribe_preserves c).2.1
  | closeSubs => rfl
  | wait r => simp [CLabel.isWait] at h
  | logs => rfl

theorem runTrace_exitCode (tr : List CLabel) (c : Command)
    (h : ∀ l ∈ tr, l.isWait = false) :
    (c.runTrace tr).exitCode = c.exitCode := by
  induction tr generalizing c with
  | nil => simp [Command.runTrace]
  | cons l ls ih =>
    rw [Command.runTrace, ih (c.applyLabel l) (fun x hx => h x (List.mem_cons_of_mem l hx)),
      applyLabel_exitCode c l (h l (List.mem_cons_self l ls))]

/-- Claim C7: a freshly constructed runner carries the sentinel exit code
-1, and along any sequence of steps that does not include the resolution of
`Wait` — in particular while the process is still running — `ExitCode`
keeps returning -1. -/
theorem C7_sentinel_before_wait (name : String) (args : List String)
    (tr : List CLabel) (h : ∀ l ∈ tr, l.isWait = false) :
    (New name args).ExitCode = -1
    ∧ ((New name args).runTrace tr).ExitCode = -1 := by
  refine ⟨rfl, ?_⟩
  show ((New name args).runTrace tr).exitCode = -1
  rw [runTrace_exitCode tr (New name args) h]
  rfl

/-- Witness for C7 at a concrete input: a started runner that has emitted a
line and gained a subscriber, but has not been waited on. -/
theorem C7_witness :
    (∀ l ∈ [CLabel.execute .ok, CLabel.outLine "a", CLabel.subscribe],
        l.isWait = false)
    ∧ ((New "yt-dlp" ["u"]).runTrace
        [CLabel.execute .ok, CLabel.outLine "a", CLabel.subscribe]).ExitCode = -1 :=
  ⟨by decide,
   (C7_sentinel_before_wait "yt-dlp" ["u"]
     [CLabel.execute .ok, CLabel.outLine "a", CLabel.subscribe] (by decide)).2⟩

/-! ### Registry lemmas (claims C5, C9) -/

theorem lookup_markFinished_self (s : Server) (id : String) (code : Int) :
    (s.markFinished id code).lookupCmd id
      = (s.lookupCmd id).map (fun info =>
          { info with
              status := if code = 0 then "completed" else "failed"
              exitCode := code }) := by
  unfold Server.markFinished Server.lookupCmd
  dsimp only
  generalize s.commands = m
  induction m with
  | nil => rfl
  | cons p ps ih =>
    by_cases h : p.1 = id
    · simp [h]
    · simp only [List.map_cons, List.find?_cons, if_neg h]
      rw [show (decide (p.1 = id)) = false by simp [h]]
      exact ih

theorem lookup_markFinished_ne (s : Server) (id id' : String) (code : Int)
    (h : id' ≠ id) :
    (s.markFinished id' code).lookupCmd id = s.lookupCmd id := by
  unfold Server.markFinished Server.lookupCmd
  dsimp only
  generalize s.commands = m
  induction m with
  | nil => rfl
  | cons p ps ih =>
    by_cases hp : p.1 = id'
    · have hpid : ¬ p.1 = id := by rw [hp]; exact h
      simp only [List.map_cons, if_pos hp]
      rw [List.find?_cons_of_neg _ (by simp [hpid]),
        List.find?_cons_of_neg _ (by simp [hpid])]
      exact ih
    · simp only [List.map_cons, if_neg hp]
      by_cases hid : p.1 = id
      · rw [List.find?_cons_of_pos _ (by simp [hid]),
          List.find?_cons_of_pos _ (by simp [hid])]
      · rw [List.find?_cons_of_neg _ (by simp [hid]),
          List.find?_cons_of_neg _ (by simp [hid])]
        exact ih

theorem find?_replace_ne (m : List (String × CommandInfo)) (k id : String)
    (v : CommandInfo) (h : ¬ k = id) :
    (m.map (fun p => if p.1 = k then (k, v) else p)).find? (fun p => p.1 = id)
      = m.find? (fun p => p.1 = id) := by
  induction m with
  | nil => rfl
  | cons p ps ih =>
    by_cases hp : p.1 = k
    · have hpid : ¬ p.1 = id := by rw [hp]; exact h
      simp only [List.map_cons, if_pos hp]
      rw [List.find?_cons_of_neg _ (by simp [h]),
        List.find?_cons_of_neg _ (by simp [hpid])]
      exact ih
    · simp only [List.map_cons, if_neg hp]
      by_cases hid : p.1 = id
      · rw [List.find?_cons_of_pos _ (by simp [hid]),
          List.find?_cons_of_pos _ (by simp [hid])]
      · rw [List.find?_cons_of_neg _ (by simp [hid]),
          List.find?_cons_of_neg _ (by simp [hid])]
        exact ih

theorem find?_mapInsert_ne (m : List (String × CommandInfo)) (k id : String)
    (v : CommandInfo) (h : ¬ k = id) :
    (mapInsert m k v).find? (fun p => p.1 = id) = m.find? (fun p => p.1 = id) := by
  unfold mapInsert
  split
  · exact find?_replace_ne m k id v h
  · rw [List.find?_append]
    rw [show ([(k, v)].find? (fun p => p.1 = id)) = none by simp [h]]
    cases m.find? (fun p => p.1 = id) <;> rfl

theorem mem_mapInsert (m : List (String × CommandInfo)) (k : String)
    (v : CommandInfo) (p : String × CommandInfo) (h : p ∈ mapInsert m k v) :
    p.1 = k ∨ p ∈ m := by
  unfold mapInsert at h
  split at h
  · obtain ⟨q, hq, hfq⟩ := List.mem_map.1 h
    by_cases hk : q.1 = k
    · left; rw [← hfq]; simp [hk]
    · right; rw [← hfq]; simp only [if_neg hk]; exact hq
  · rcases List.mem_append.1 h with h1 | h1
    · right; exact h1
    · left
      have : p = (k, v) := by simpa using h1
      rw [this]

theorem counter_applyOp_mono (s : Server) (op : SOp) :
    s.commandCounter ≤ (s.applyOp op).commandCounter := by
  cases op with
  | register url => exact Nat.le_succ _
  | finish id code => exact Nat.le_refl _
  | readOnly => exact Nat.le_refl _

theorem inv_applyOp (s : Server) (op : SOp) (h : s.Inv) : (s.applyOp op).Inv := by
  cases op with
  | register url =>
    intro p hp
    have hmem : p.1 = mkCommandID (s.commandCounter + 1) ∨ p ∈ s.commands :=
      mem_mapInsert s.commands _ _ p hp
    rcases hmem with h1 | h1
    · exact ⟨s.commandCounter + 1, by omega, by exact Nat.le_refl _, h1⟩
    · obtain ⟨n, hn1, hn2, hn3⟩ := h p h1
      exact ⟨n, hn1, by exact Nat.le_succ_of_le hn2, hn3⟩
  | finish id code =>
    intro p hp
    obtain ⟨q, hq, hfq⟩ := List.mem_map.1 hp
    obtain ⟨n, hn1, hn2, hn3⟩ := h q hq
    refine ⟨n, hn1, hn2, ?_⟩
    rw [← hfq]
    by_cases hid : q.1 = id
    · simp only [if_pos hid]; exact hn3
    · simp only [if_neg hid]; exact hn3
  | readOnly => exact h

theorem lookup_key_mem (s : Server) (id : String) (info : CommandInfo)
    (h : s.lookupCmd id = some info) : ∃ p ∈ s.commands, p.1 = id := by
  unfold Server.lookupCmd at h
  cases hf : s.commands.find? (fun p => p.1 = id) with
  | none => rw [hf] at h; simp at h
  | some p =>
    have hp := List.find?_some hf
    exact ⟨p, List.mem_of_find?_eq_some hf, by simpa using hp⟩

theorem lookup_register (s : Server) (url : String) (id : String)
    (h : ¬ mkCommandID (s.commandCounter + 1) = id) :
    ((s.registerCommand url).2).lookupCmd id = s.lookupCmd id := by
  unfold Server.registerCommand Server.nextCommandID Server.lookupCmd
  dsimp only
  rw [find?_mapInsert_ne s.commands _ id _ h]

theorem applyOp_lookup_preserved (s : Server) (op : SOp) (id : String)
    (info : CommandInfo) (hinv : s.Inv) (hsome : s.lookupCmd id = some info)
    (hop : ∀ k, op ≠ SOp.finish id k) :
    (s.applyOp op).lookupCmd id = s.lookupCmd id := by
  cases op with
  | register url =>
    obtain ⟨p, hp, hpid⟩ := lookup_key_mem s id info hsome
    obtain ⟨n, hn1, hn2, hn3⟩ := hinv p hp
    have hne : ¬ mkCommandID (s.commandCounter + 1) = id := by
      intro he
      have : mkCommandID (s.commandCounter + 1) = mkCommandID n := by
        rw [he, ← hpid, hn3]
      have := mkCommandID_injective this
      omega
    exact lookup_register s url id hne
  | finish id' code =>
    have hne : id' ≠ id := by
      intro he
      exact (hop code) (by rw [he])
    exact lookup_markFinished_ne s id id' code hne
  | readOnly => rfl

theorem runOps_lookup_preserved (ops : List SOp) (s : Server) (id : String)
    (info : CommandInfo) (hinv : s.Inv) (hsome : s.lookupCmd id = some info)
    (hops : ∀ op ∈ ops, ∀ k, op ≠ SOp.finish id k) :
    (s.runOps ops).lookupCmd id = s.lookupCmd id := by
  induction ops generalizing s with
  | nil => simp [Server.runOps]
  | cons op ops ih =>
    have h1 := applyOp_lookup_preserved s op id info hinv hsome
      (hops op (List.mem_cons_self op ops))
    rw [Server.runOps,
      ih (s.applyOp op) (inv_applyOp s op hinv) (by rw [h1]; exact hsome)
        (fun x hx => hops x (List.mem_cons_of_mem op hx)),
      h1]

/-- Claim C5: for a registered command whose entry is "running", the monitor
update after its `wait()` resolves sets the status to "completed" exactly
when the exit code is 0 and to "failed" otherwise; and the state is
terminal: as long as no second finish for the same identifier occurs (the
program spawns exactly one monitor per registration), no later registry
operation changes that entry again. -/
theorem C5_status_transition_terminal (s : Server) (id : String)
    (info : CommandInfo) (code : Int) (hinv : s.Inv)
    (hfound : s.lookupCmd id = some info) (hrun : info.status = "running") :
    ((s.markFinished id code).lookupCmd id).map CommandInfo.status
        = some (if code = 0 then "completed" else "failed")
    ∧ ∀ ops : List SOp, (∀ op ∈ ops, ∀ k, op ≠ SOp.finish id k) →
        ((s.markFinished id code).runOps ops).lookupCmd id
          = (s.markFinished id code).lookupCmd id := by
  have hlk := lookup_markFinished_self s id code
  constructor
  · rw [hlk, hfound]
    rfl
  · intro ops hops
    have hinv' : (s.markFinished id code).Inv := inv_applyOp s (.finish id code) hinv
    refine runOps_lookup_preserved ops (s.markFinished id code) id
      { info with
          status := if code = 0 then "completed" else "failed"
          exitCode := code } hinv' ?_ hops
    rw [hlk, hfound]
    rfl

/-- The concrete registry of the C5 witness: one registered command. -/
def s5 : Server :=
  ({ commands := [], commandCounter := 0 } : Server).applyOp (.register "u")

/-- The entry the C5 witness starts from. -/
def i5 : CommandInfo :=
  { id := mkCommandID 1, url := "u", status := "running", exitCode := 0 }

/-- Witness for C5 at a concrete input: one running entry is finished with
exit code 0 and later operations leave it alone. -/
theorem C5_witness :
    (s5.lookupCmd (mkCommandID 1) = some i5 ∧ i5.status = "running")
    ∧ ((s5.markFinished (mkCommandID 1) 0).lookupCmd (mkCommandID 1)).map
        CommandInfo.status = some (if (0 : Int) = 0 then "completed" else "failed")
    ∧ ((s5.markFinished (mkCommandID 1) 0).runOps
        [SOp.readOnly, SOp.register "v"]).lookupCmd (mkCommandID 1)
        = (s5.markFinished (mkCommandID 1) 0).lookupCmd (mkCommandID 1) :=
  ⟨⟨by decide, by decide⟩,
   (C5_status_transition_terminal s5 (mkCommandID 1) i5 0
      (inv_applyOp _ _ (fun p hp => absurd hp (by simp)))
      (by decide) (by decide)).1,
   (C5_status_transition_terminal s5 (mkCommandID 1) i5 0
      (inv_applyOp _ _ (fun p hp => absurd hp (by simp)))
      (by decide) (by decide)).2
     [SOp.readOnly, SOp.register "v"]
     (by
       intro op hop k
       rcases List.mem_cons.1 hop with h | h
       · rw [h]; exact fun hh => SOp.noConfusion hh
       · rcases List.mem_cons.1 h with h2 | h2
         · rw [h2]; exact fun hh => SOp.noConfusion hh
         · simp at h2)⟩

theorem allocPairs_mem (s : Server) (k : Nat) :
    ∀ pr ∈ s.allocPairs k,
      ∃ i, i < k ∧ pr = (mkCommandID (s.commandCounter + i + 1), s.commandCounter + i + 1) := by
  induction k generalizing s with
  | zero => intro pr hpr; simp [Server.allocPairs] at hpr
  | succ k ih =>
    intro pr hpr
    rw [Server.allocPairs] at hpr
    rcases List.mem_cons.1 hpr with h | h
    · exact ⟨0, by omega, by simpa [Server.nextCommandID] using h⟩
    · obtain ⟨i, hi, hpr'⟩ := ih _ pr h
      refine ⟨i + 1, by omega, ?_⟩
      have harith : (s.nextCommandID).2.commandCounter + i + 1
          = s.commandCounter + (i + 1) + 1 := by
        simp [Server.nextCommandID]
        omega
      rw [hpr', harith]

theorem allocPairs_pairwise (s : Server) (k : Nat) :
    (s.allocPairs k).Pairwise (fun a b => a.2 < b.2 ∧ a.1 ≠ b.1) := by
  induction k generalizing s with
  | zero => simp [Server.allocPairs]
  | succ k ih =>
    rw [Server.allocPairs]
    refine List.Pairwise.cons ?_ (ih _)
    intro b hb
    obtain ⟨i, hi, hb'⟩ := allocPairs_mem _ k b hb
    rw [hb']
    constructor
    · show s.commandCounter + 1 < (s.nextCommandID).2.commandCounter + i + 1
      simp [Server.nextCommandID]
      omega
    · intro he
      have := mkCommandID_injective he
      simp [Server.nextCommandID] at this
      omega

/-- Claim C9: the identifiers returned by successive register calls (the
mutex on the counter serialises them) are pairwise distinct, come from
strictly increasing counter values issued in call order, each renders its
counter value, and — given the registry invariant — none of them collides
with an identifier already issued to a registered command, so an identifier
is never reused for a different command. -/
theorem C9_ids_unique_increasing (s : Server) (k : Nat) :
    (s.allocPairs k).Pairwise (fun a b => a.2 < b.2 ∧ a.1 ≠ b.1)
    ∧ (∀ pr ∈ s.allocPairs k, pr.1 = mkCommandID pr.2 ∧ s.commandCounter < pr.2)
    ∧ (s.Inv → ∀ pr ∈ s.allocPairs k, s.lookupCmd pr.1 = none) := by
  refine ⟨allocPairs_pairwise s k, ?_, ?_⟩
  · intro pr hpr
    obtain ⟨i, hi, hpr'⟩ := allocPairs_mem s k pr hpr
    rw [hpr']
    exact ⟨rfl, by omega⟩
  · intro hinv pr hpr
    obtain ⟨i, hi, hpr'⟩ := allocPairs_mem s k pr hpr
    cases hl : s.lookupCmd pr.1 with
    | none => rfl
    | some info =>
      obtain ⟨p, hp, hpid⟩ := lookup_key_mem s pr.1 info hl
      obtain ⟨n, hn1, hn2, hn3⟩ := hinv p hp
      have : mkCommandID (s.commandCounter + i + 1) = mkCommandID n := by
        rw [← hn3, hpid, hpr']
      have := mkCommandID_injective this
      omega

/-- Witness for C9 at a concrete input: three allocations from an empty
registry. -/
theorem C9_witness :
    (mkCommandID 1, 1) ∈ ({ commands := [], commandCounter := 0 } : Server).allocPairs 3
    ∧ ({ commands := [], commandCounter := 0 } : Server).lookupCmd (mkCommandID 1)
        = none :=
  ⟨by decide,
   (C9_ids_unique_increasing { commands := [], commandCounter := 0 } 3).2.2
     (fun p hp => absurd hp (by simp)) (mkCommandID 1, 1) (by decide)⟩

end Ytdl2
